import Mathlib

/-!
Shallow embedding of the paginated PDF layout engine of this repository
(`src/services/pdf.ts`, function `generateRepoPdf`) and of the
table-of-contents file reordering (`src/services/gemini.ts`,
`formatRepoForPdf`, the final `sort` over highlighted files).

The jsPDF library is external to the repository; it is modelled as an
opaque injected text-metrics service (`Metrics`): the width of a string
under the active font, the word-wrapping of a string to a maximal width
(`splitTextToSize`), and the vertical advance jsPDF uses between the
successive lines of one multi-line `text` call.  Page geometry uses the
jsPDF defaults the source relies on (A4 portrait in millimetres:
210 x 297).  Machine reals are modelled as rationals.
-/

namespace RepoPdf

/-- A syntax-highlighted token `{ text, color }` (`HighlightedToken` in
`src/types.ts`); the color string is arbitrary and validated only inside
the renderer. -/
structure HighlightedToken where
  text : String
  color : String
  deriving DecidableEq, Repr

/-- One logical source line: an ordered sequence of tokens, possibly empty
(`HighlightedLine` in `src/types.ts`). -/
structure HighlightedLine where
  tokens : List HighlightedToken
  deriving DecidableEq, Repr

/-- One highlighted file (`HighlightedFile` in `src/types.ts`). -/
structure HighlightedFile where
  path : String
  language : String
  lines : List HighlightedLine
  deriving DecidableEq, Repr

/-- The structured document handed to the renderer (`FormattedRepoData` in
`src/types.ts`). -/
structure FormattedRepoData where
  title : String
  tableOfContents : List String
  files : List HighlightedFile
  deriving DecidableEq, Repr

/-- The color theme (`'light' | 'dark'` in `src/types.ts`). -/
inductive Theme where
  | light
  | dark
  deriving DecidableEq, Repr

/-- Render options (`PdfOptions` in `src/types.ts`): font family name,
font size, line-spacing multiplier, theme. -/
structure PdfOptions where
  font : String
  fontSize : ℚ
  lineSpacing : ℚ
  theme : Theme
  deriving DecidableEq, Repr

/-- Theme color constant of `src/services/pdf.ts` (slate-800). -/
def DARK_MODE_BACKGROUND : String := "#1E293B"

/-- Theme color constant of `src/services/pdf.ts` (slate-200). -/
def DARK_MODE_TEXT : String := "#E2E8F0"

/-- Theme color constant of `src/services/pdf.ts`. -/
def LIGHT_MODE_TEXT : String := "#000000"

/-- Page margin used on all four sides (`MARGIN = 15` in
`generateRepoPdf`). -/
def MARGIN : ℚ := 15

/-- jsPDF default page width (A4 portrait, millimetres); read by the
source as `doc.internal.pageSize.width`. -/
def pageWidth : ℚ := 210

/-- jsPDF default page height (A4 portrait, millimetres); read by the
source as `doc.internal.pageSize.height`. -/
def pageHeight : ℚ := 297

/-- Usable content width, `pageWidth - MARGIN * 2` in `generateRepoPdf`. -/
def contentWidth : ℚ := pageWidth - MARGIN * 2

/-- One character class of the validation regex of `generateRepoPdf`
line 105: the class `[0-9A-F]` under the case-insensitive flag. -/
def isHexDigitCh (c : Char) : Bool :=
  (('0' ≤ c) && (c ≤ '9')) || (('A' ≤ c) && (c ≤ 'F')) || (('a' ≤ c) && (c ≤ 'f'))

/-- The color validation of `generateRepoPdf` line 105: the regex test
`/^#[0-9A-F]{6}$/i.test(color)`. -/
def isValidHex (s : String) : Bool :=
  match s.data with
  | '#' :: rest => rest.length == 6 && rest.all isHexDigitCh
  | _ => false

/-- The theme adjustment of `generateRepoPdf` lines 97-102: in dark mode
black is remapped to the light foreground, in light mode white is
remapped to black. -/
def adjustColor (isDark : Bool) (c : String) : String :=
  if isDark && (c == "#000000" || c == "black") then DARK_MODE_TEXT
  else if !isDark && (c == "#FFFFFF" || c == "white") then LIGHT_MODE_TEXT
  else c

/-- The complete per-token color computation of `generateRepoPdf`
lines 95-105: theme adjustment, then regex validation with fallback to
the theme's default text color. -/
def effectiveColor (isDark : Bool) (deflt : String) (c : String) : String :=
  let c1 := adjustColor isDark c
  if isValidHex c1 then c1 else deflt

/-- The opaque injected text-metrics service provided by jsPDF:
`width name style size text` models `doc.getTextWidth(text)` with the
given active font; `split name style size text maxWidth` models
`doc.splitTextToSize(text, maxWidth)`; `lineAdv size` models the vertical
advance jsPDF applies between the successive wrapped lines of a single
multi-line `doc.text` call at the given font size. -/
structure Metrics where
  width : String → String → ℚ → String → ℚ
  split : String → String → ℚ → String → ℚ → List String
  lineAdv : ℚ → ℚ

/-- Which emitting statement of `generateRepoPdf` produced a run. -/
inductive RunKind where
  | title
  | tocHeading
  | tocEntry
  | separator
  | code
  deriving DecidableEq, Repr

/-- One positioned colored text run of the output document: the result of
drawing one line of one `doc.text` call.  `blockLine` records which
wrapped line of its `doc.text` call the run is (0 for the first; token
runs are always single-line, hence 0). -/
structure Run where
  text : String
  x : ℚ
  y : ℚ
  color : String
  page : ℕ
  kind : RunKind
  blockLine : ℕ
  deriving DecidableEq, Repr

/-- The mutable render-time state of `generateRepoPdf`: jsPDF's current
page, the vertical cursor `y`, the active font and text color, and the
accumulated output runs.  `row` is a ghost counter of visual rows: it is
incremented exactly when the source advances `y` by one line height
inside the code-line flow or resets to a fresh page. -/
structure RState where
  page : ℕ
  y : ℚ
  fontName : String
  fontStyle : String
  fontSize : ℚ
  color : String
  row : ℕ
  runs : List Run
  deriving DecidableEq, Repr

/-- `doc.setFont(name, style)`. -/
def setFont (s : RState) (name style : String) : RState :=
  { s with fontName := name, fontStyle := style }

/-- `doc.setFontSize(size)`. -/
def setFontSize (s : RState) (size : ℚ) : RState :=
  { s with fontSize := size }

/-- `doc.setTextColor(color)`. -/
def setTextColor (s : RState) (c : String) : RState :=
  { s with color := c }

/-- The page-break policy `checkNewPage(neededHeight)` of
`src/services/pdf.ts` lines 30-36: if `y + neededHeight` would pass the
bottom margin, open a new page (with the theme background) and reset the
vertical cursor to the top margin. -/
def checkNewPage (s : RState) (needed : ℚ) : RState :=
  if pageHeight - MARGIN < s.y + needed then
    { s with page := s.page + 1, y := MARGIN, row := s.row + 1 }
  else s

/-- The runs produced by one multi-line `doc.text(lines, x, y)` call:
jsPDF draws the i-th string of `lines` at vertical offset `i * adv`
below the anchor `y`. -/
def blockRuns (k : RunKind) (x y adv : ℚ) (color : String) (page : ℕ) :
    ℕ → List String → List Run
  | _, [] => []
  | i, t :: ts =>
      ⟨t, x, y + (i : ℚ) * adv, color, page, k, i⟩ ::
        blockRuns k x y adv color page (i + 1) ts

/-- Emit one multi-line `doc.text(lines, x, s.y)` call at the current
cursor, with the current color and page. -/
def emitBlock (s : RState) (k : RunKind) (adv : ℚ) (x : ℚ)
    (ls : List String) : RState :=
  { s with runs := s.runs ++ blockRuns k x s.y adv s.color s.page 0 ls }

/-- The per-token body of the token loop of `generateRepoPdf`
lines 94-118: compute the effective color, set it, measure the token,
wrap to a new visual row (re-checking the page-break policy) when the
token would pass the right margin and at least one token already sits on
the row, then draw the token and advance the horizontal cursor. -/
def tokenStep (LH : ℚ) (m : Metrics) (isDark : Bool) (deflt : String)
    (t : HighlightedToken) : RState × ℚ → RState × ℚ
  | (s, x) =>
    let color := effectiveColor isDark deflt t.color
    let s1 := setTextColor s color
    let w := m.width s1.fontName s1.fontStyle s1.fontSize t.text
    let sx2 :=
      if MARGIN < x ∧ pageWidth - MARGIN < x + w then
        (checkNewPage { s1 with y := s1.y + LH, row := s1.row + 1 } LH, MARGIN)
      else (s1, x)
    ({ sx2.1 with
        runs := sx2.1.runs ++
          [⟨t.text, sx2.2, sx2.1.y, color, sx2.1.page, RunKind.code, 0⟩] },
      sx2.2 + w)

/-- The token loop `line.tokens.forEach(...)` of `generateRepoPdf`. -/
def processTokens (LH : ℚ) (m : Metrics) (isDark : Bool) (deflt : String) :
    RState × ℚ → List HighlightedToken → RState × ℚ
  | sx, [] => sx
  | sx, t :: ts =>
      processTokens LH m isDark deflt (tokenStep LH m isDark deflt t sx) ts

/-- One logical source line, `generateRepoPdf` lines 85-120: page-break
check, blank-line shortcut, token loop from the left margin, final
advance of the vertical cursor by one line height. -/
def processLine (LH : ℚ) (m : Metrics) (isDark : Bool) (deflt : String)
    (s : RState) (line : HighlightedLine) : RState :=
  let s1 := checkNewPage s LH
  if line.tokens = [] then { s1 with y := s1.y + LH, row := s1.row + 1 }
  else
    let s2 := (processTokens LH m isDark deflt (s1, MARGIN) line.tokens).1
    { s2 with y := s2.y + LH, row := s2.row + 1 }

/-- The lines loop `file.lines.forEach(...)`. -/
def processLines (LH : ℚ) (m : Metrics) (isDark : Bool) (deflt : String) :
    RState → List HighlightedLine → RState
  | s, [] => s
  | s, l :: ls =>
      processLines LH m isDark deflt (processLine LH m isDark deflt s l) ls

/-- One file section, `generateRepoPdf` lines 69-120: vertical gap,
page-break check, color reset, bold separator line
`File: <path> (<language>)` wrapped to content width, then every source
line at body font. -/
def processFile (LH : ℚ) (m : Metrics) (isDark : Bool) (deflt : String)
    (fontName : String) (fontSize : ℚ) (s : RState)
    (f : HighlightedFile) : RState :=
  let s1 := checkNewPage { s with y := s.y + 10 } 20
  let s2 := setFontSize (setFont (setTextColor s1 deflt) fontName "bold") 12
  let sep := "File: " ++ f.path ++ " (" ++ f.language ++ ")"
  let sepLines := m.split s2.fontName s2.fontStyle s2.fontSize sep contentWidth
  let s3 := emitBlock s2 RunKind.separator (m.lineAdv s2.fontSize) MARGIN sepLines
  let s4 := { s3 with y := s3.y + (sepLines.length : ℚ) * 6 + 4 }
  let s5 := setFontSize (setFont s4 fontName "normal") fontSize
  processLines LH m isDark deflt s5 f.lines

/-- The files loop `data.files.forEach(...)`. -/
def processFiles (LH : ℚ) (m : Metrics) (isDark : Bool) (deflt : String)
    (fontName : String) (fontSize : ℚ) :
    RState → List HighlightedFile → RState
  | s, [] => s
  | s, f :: fs =>
      processFiles LH m isDark deflt fontName fontSize
        (processFile LH m isDark deflt fontName fontSize s f) fs

/-- One table-of-contents entry, `generateRepoPdf` lines 61-66: wrap the
path to content width, page-break check for the whole wrapped block,
emit, advance. -/
def processTocEntry (LH : ℚ) (m : Metrics) (s : RState)
    (path : String) : RState :=
  let ls := m.split s.fontName s.fontStyle s.fontSize path contentWidth
  let s1 := checkNewPage s ((ls.length : ℚ) * LH)
  let s2 := emitBlock s1 RunKind.tocEntry (m.lineAdv s1.fontSize) MARGIN ls
  { s2 with y := s2.y + (ls.length : ℚ) * LH }

/-- The table-of-contents loop. -/
def processTocEntries (LH : ℚ) (m : Metrics) :
    RState → List String → RState
  | s, [] => s
  | s, p :: ps => processTocEntries LH m (processTocEntry LH m s p) ps

/-- The serialized output document: the flat list of positioned runs,
the number of pages, and whether pages carry the dark background fill. -/
structure PdfDoc where
  runs : List Run
  pageCount : ℕ
  darkBackground : Bool
  deriving DecidableEq, Repr

/-- The title block of `generateRepoPdf` lines 43-48: bold 24-point
wrapped title at the cursor, then a 12-unit-per-line plus 10-unit gap
advance. -/
def titlePhase (m : Metrics) (data : FormattedRepoData) (o : PdfOptions)
    (s0 : RState) : RState :=
  let s1 := setFontSize (setFont s0 o.font "bold") 24
  let titleLines := m.split s1.fontName s1.fontStyle s1.fontSize data.title contentWidth
  let s2 := checkNewPage s1 ((titleLines.length : ℚ) * 12)
  let s3 := emitBlock s2 RunKind.title (m.lineAdv s2.fontSize) MARGIN titleLines
  { s3 with y := s3.y + (titleLines.length : ℚ) * 12 + 10 }

/-- The Table of Contents heading of `generateRepoPdf` lines 50-60:
color reset, page-break check, bold 16-point heading, 8-unit advance,
then the body font for the entries. -/
def tocHeadPhase (m : Metrics) (o : PdfOptions) (s : RState) : RState :=
  let deflt := if o.theme == Theme.dark then DARK_MODE_TEXT else LIGHT_MODE_TEXT
  let s5 := setTextColor s deflt
  let s6 := checkNewPage s5 20
  let s7 := setFontSize (setFont s6 o.font "bold") 16
  let s8 := emitBlock s7 RunKind.tocHeading (m.lineAdv s7.fontSize) MARGIN
    ["Table of Contents"]
  let s9 := { s8 with y := s8.y + 8 }
  setFontSize (setFont s9 o.font "normal") o.fontSize

/-- The body of `generateRepoPdf` from the title block to the end of the
files loop, starting from an explicit render state: title block, the
Table of Contents heading and entries, then every file section. -/
def renderBody (m : Metrics) (data : FormattedRepoData) (o : PdfOptions)
    (s0 : RState) : RState :=
  let isDark := o.theme == Theme.dark
  let LH := o.fontSize * (1 / 2) * o.lineSpacing
  let deflt := if isDark then DARK_MODE_TEXT else LIGHT_MODE_TEXT
  let s11 := processTocEntries LH m (tocHeadPhase m o (titlePhase m data o s0))
    data.tableOfContents
  processFiles LH m isDark deflt o.font o.fontSize s11 data.files

/-- The initial render state of `generateRepoPdf`: jsPDF starts on page
0 with its default font, the source sets `y = MARGIN` and the default
text color for the theme before the title block. -/
def initState (o : PdfOptions) : RState :=
  ⟨0, MARGIN, "helvetica", "normal", 16,
    if o.theme == Theme.dark then DARK_MODE_TEXT else LIGHT_MODE_TEXT, 0, []⟩

/-- The final render state of `generateRepoPdf` just before
`doc.output('blob')`. -/
def renderState (m : Metrics) (repoName : String) (data : FormattedRepoData)
    (o : PdfOptions) : RState :=
  let _ := repoName
  renderBody m data o (initState o)

/-- The renderer `generateRepoPdf(repoName, data, options)` of
`src/services/pdf.ts`: a pure function from the document, the options
and the injected jsPDF metrics to the serialized paginated output. -/
def generateRepoPdf (m : Metrics) (repoName : String)
    (data : FormattedRepoData) (o : PdfOptions) : PdfDoc :=
  let s := renderState m repoName data o
  ⟨s.runs, s.page + 1, o.theme == Theme.dark⟩

/-- JavaScript `Array.prototype.indexOf` returning the first index of an
element, or -1 when absent, as used on `tableOfContents` in
`formatRepoForPdf` (`src/services/gemini.ts` lines 176-180). -/
def jsIndexOfAux (a : String) : List String → Option ℕ
  | [] => none
  | b :: t => if b == a then some 0 else (jsIndexOfAux a t).map (· + 1)

/-- `tableOfContents.indexOf(path)` as an integer (-1 when absent). -/
def jsIndexOf (l : List String) (a : String) : ℤ :=
  match jsIndexOfAux a l with
  | some i => (i : ℤ)
  | none => -1

/-- The sort key of the comparator
`(a, b) => toc.indexOf(a.path) - toc.indexOf(b.path)`. -/
def fileKey (toc : List String) (f : HighlightedFile) : ℤ :=
  jsIndexOf toc f.path

/-- The reordering of highlighted files in `formatRepoForPdf`: the
ECMAScript `sort` is stable and the comparator is consistent (induced by
the integer key `fileKey`), so it is modelled by a stable sort by that
key. -/
def sortFiles (toc : List String) (fs : List HighlightedFile) :
    List HighlightedFile :=
  List.insertionSort (fun a b => fileKey toc a ≤ fileKey toc b) fs

/-! Basic facts about the state-transition steps. -/

@[simp]
theorem checkNewPage_runs (s : RState) (h : ℚ) :
    (checkNewPage s h).runs = s.runs := by
  unfold checkNewPage; split <;> rfl

@[simp]
theorem checkNewPage_color (s : RState) (h : ℚ) :
    (checkNewPage s h).color = s.color := by
  unfold checkNewPage; split <;> rfl

@[simp]
theorem checkNewPage_fontName (s : RState) (h : ℚ) :
    (checkNewPage s h).fontName = s.fontName := by
  unfold checkNewPage; split <;> rfl

@[simp]
theorem checkNewPage_fontStyle (s : RState) (h : ℚ) :
    (checkNewPage s h).fontStyle = s.fontStyle := by
  unfold checkNewPage; split <;> rfl

@[simp]
theorem checkNewPage_fontSize (s : RState) (h : ℚ) :
    (checkNewPage s h).fontSize = s.fontSize := by
  unfold checkNewPage; split <;> rfl

theorem checkNewPage_page (s : RState) (h : ℚ) :
    (checkNewPage s h).page = s.page ∨
      ((checkNewPage s h).page = s.page + 1 ∧ (checkNewPage s h).y = MARGIN ∧
        (checkNewPage s h).row = s.row + 1) := by
  unfold checkNewPage; split
  · exact Or.inr ⟨rfl, rfl, rfl⟩
  · exact Or.inl rfl

theorem checkNewPage_page_eq {s : RState} {h : ℚ}
    (hp : (checkNewPage s h).page = s.page) : checkNewPage s h = s := by
  unfold checkNewPage at hp ⊢
  by_cases hc : pageHeight - MARGIN < s.y + h
  · rw [if_pos hc] at hp; simp at hp
  · rw [if_neg hc]

/-- The single run emitted by one iteration of the token loop. -/
theorem tokenStep_runs (LH : ℚ) (m : Metrics) (d : Bool) (deflt : String)
    (t : HighlightedToken) (s : RState) (x : ℚ) :
    ∃ r, (tokenStep LH m d deflt t (s, x)).1.runs = s.runs ++ [r] ∧
      r.text = t.text ∧ r.color = effectiveColor d deflt t.color ∧
      r.kind = RunKind.code ∧ r.blockLine = 0 ∧
      r.x = if MARGIN < x ∧
          pageWidth - MARGIN < x + m.width s.fontName s.fontStyle s.fontSize t.text
        then MARGIN else x := by
  unfold tokenStep checkNewPage
  dsimp only [setTextColor]
  split
  case isTrue hcond =>
    split
    · exact ⟨_, rfl, rfl, rfl, rfl, rfl, rfl⟩
    · exact ⟨_, rfl, rfl, rfl, rfl, rfl, rfl⟩
  case isFalse hcond =>
    exact ⟨_, rfl, rfl, rfl, rfl, rfl, rfl⟩

theorem tokenStep_row (LH : ℚ) (m : Metrics) (d : Bool) (deflt : String)
    (t : HighlightedToken) (s : RState) (x : ℚ) :
    (tokenStep LH m d deflt t (s, x)).1.row = s.row ∨
      ((tokenStep LH m d deflt t (s, x)).1.row = s.row + 1 ∨
        (tokenStep LH m d deflt t (s, x)).1.row = s.row + 2) := by
  unfold tokenStep checkNewPage
  dsimp only [setTextColor]
  split
  · split
    · right; right; rfl
    · right; left; rfl
  · left; rfl

theorem tokenStep_row_of_cond (LH : ℚ) (m : Metrics) (d : Bool)
    (deflt : String) (t : HighlightedToken) (s : RState) (x : ℚ)
    (h : MARGIN < x ∧
      pageWidth - MARGIN < x + m.width s.fontName s.fontStyle s.fontSize t.text) :
    s.row + 1 ≤ (tokenStep LH m d deflt t (s, x)).1.row := by
  unfold tokenStep checkNewPage
  dsimp only [setTextColor]
  rw [if_pos h]
  split
  · dsimp only; omega
  · dsimp only; omega

theorem tokenStep_row_of_not_cond (LH : ℚ) (m : Metrics) (d : Bool)
    (deflt : String) (t : HighlightedToken) (s : RState) (x : ℚ)
    (h : ¬(MARGIN < x ∧
      pageWidth - MARGIN < x + m.width s.fontName s.fontStyle s.fontSize t.text)) :
    (tokenStep LH m d deflt t (s, x)).1.row = s.row := by
  unfold tokenStep
  dsimp only [setTextColor]
  rw [if_neg h]

/-- Every token of a line contributes exactly one appended run, in order,
carrying the token's full text. -/
theorem processTokens_runs (LH : ℚ) (m : Metrics) (d : Bool)
    (deflt : String) (ts : List HighlightedToken) : ∀ (s : RState) (x : ℚ),
    ∃ new, (processTokens LH m d deflt (s, x) ts).1.runs = s.runs ++ new ∧
      new.map Run.text = ts.map HighlightedToken.text := by
  induction ts with
  | nil => exact fun s x => ⟨[], by simp [processTokens], rfl⟩
  | cons t ts ih =>
    intro s x
    obtain ⟨r, hr, hrt, -⟩ := tokenStep_runs LH m d deflt t s x
    obtain ⟨new1, hnew1, hmap1⟩ :=
      ih (tokenStep LH m d deflt t (s, x)).1 (tokenStep LH m d deflt t (s, x)).2
    refine ⟨r :: new1, ?_, by simp [hmap1, hrt]⟩
    show (processTokens LH m d deflt (tokenStep LH m d deflt t (s, x)) ts).1.runs = _
    rw [← Prod.mk.eta (p := tokenStep LH m d deflt t (s, x))] at hr ⊢
    rw [hnew1, hr]
    simp

/-! Concrete instantiations used by the witness theorems: a metrics
service in which every character is one unit wide, no string is
word-wrapped, and multi-line blocks advance five units per line. -/

/-- A concrete jsPDF metrics instantiation for witnesses. -/
def unitMetrics : Metrics :=
  ⟨fun _ _ _ t => (t.length : ℚ), fun _ _ _ t _ => [t], fun _ => 5⟩

/-- A concrete mid-render state for witnesses. -/
def sampleState : RState :=
  ⟨0, MARGIN, "Courier", "normal", 9, "#000000", 0, []⟩

/-- A concrete token wider than the content width (200 units wide under
`unitMetrics`). -/
def longToken : HighlightedToken :=
  ⟨String.mk (List.replicate 200 'a'), "#000000"⟩

/-- C1: in the token loop of `generateRepoPdf`, a token is moved to a new
visual row if and only if the horizontal position is strictly greater
than the left margin and the horizontal position plus the token's
measured width strictly exceeds `pageWidth - MARGIN`; a token that
exactly fills the remaining width stays on the current row, and a token
starting at the left margin is placed there without wrapping. -/
theorem C1_wrap_iff (LH : ℚ) (m : Metrics) (isDark : Bool) (deflt : String)
    (s : RState) (x : ℚ) (t : HighlightedToken) :
    ((tokenStep LH m isDark deflt t (s, x)).1.row ≠ s.row ↔
      (MARGIN < x ∧ pageWidth - MARGIN <
        x + m.width s.fontName s.fontStyle s.fontSize t.text))
    ∧ (x = MARGIN → (tokenStep LH m isDark deflt t (s, x)).1.row = s.row)
    ∧ (x + m.width s.fontName s.fontStyle s.fontSize t.text = pageWidth - MARGIN →
        (tokenStep LH m isDark deflt t (s, x)).1.row = s.row)
    ∧ ∃ r, (tokenStep LH m isDark deflt t (s, x)).1.runs = s.runs ++ [r] ∧
        r.text = t.text ∧
        r.x = if MARGIN < x ∧ pageWidth - MARGIN <
            x + m.width s.fontName s.fontStyle s.fontSize t.text
          then MARGIN else x := by
  refine ⟨⟨fun hne => ?_, fun hcond => ?_⟩, fun hx => ?_, fun hfit => ?_, ?_⟩
  · by_contra hcond
    exact hne (tokenStep_row_of_not_cond LH m isDark deflt t s x hcond)
  · have := tokenStep_row_of_cond LH m isDark deflt t s x hcond
    omega
  · refine tokenStep_row_of_not_cond LH m isDark deflt t s x ?_
    rintro ⟨h1, -⟩
    rw [hx] at h1
    exact lt_irrefl _ h1
  · refine tokenStep_row_of_not_cond LH m isDark deflt t s x ?_
    rintro ⟨-, h2⟩
    rw [hfit] at h2
    exact lt_irrefl _ h2
  · obtain ⟨r, hr, hrt, -, -, -, hrx⟩ := tokenStep_runs LH m isDark deflt t s x
    exact ⟨r, hr, hrt, hrx⟩

/-- Witness for C1: at horizontal position 200 a six-unit token wraps
(its row changes); the new run starts at the left margin. -/
theorem C1_wrap_iff_witness :
    (tokenStep 5 unitMetrics false "#000000" ⟨"abcdef", "#000000"⟩
      (sampleState, 200)).1.row ≠ sampleState.row :=
  (C1_wrap_iff 5 unitMetrics false "#000000" sampleState 200
    ⟨"abcdef", "#000000"⟩).1.mpr (by
      refine ⟨by norm_num [MARGIN], ?_⟩
      show pageWidth - MARGIN < 200 + (("abcdef".length : ℕ) : ℚ)
      rw [show "abcdef".length = 6 from rfl]
      norm_num [pageWidth, MARGIN])

/-- C2: every token of every line is emitted as exactly one placed run
carrying its full text (tokens are never split), and a single token
wider than the content width, placed at the left margin, is emitted
whole at the left margin and overflows past the right margin instead of
being broken or rejected. -/
theorem C2_tokens_atomic (LH : ℚ) (m : Metrics) (isDark : Bool)
    (deflt : String) (s : RState) (x : ℚ) (ts : List HighlightedToken) :
    (∃ new, (processTokens LH m isDark deflt (s, x) ts).1.runs = s.runs ++ new ∧
      new.map Run.text = ts.map HighlightedToken.text)
    ∧ ∀ t : HighlightedToken,
        contentWidth < m.width s.fontName s.fontStyle s.fontSize t.text →
        ∃ r, (tokenStep LH m isDark deflt t (s, MARGIN)).1.runs = s.runs ++ [r] ∧
          r.text = t.text ∧ r.x = MARGIN ∧
          pageWidth - MARGIN < r.x + m.width s.fontName s.fontStyle s.fontSize t.text := by
  refine ⟨processTokens_runs LH m isDark deflt ts s x, fun t hw => ?_⟩
  obtain ⟨r, hr, hrt, -, -, -, hrx⟩ := tokenStep_runs LH m isDark deflt t s MARGIN
  rw [if_neg (by rintro ⟨h1, -⟩; exact lt_irrefl _ h1)] at hrx
  refine ⟨r, hr, hrt, hrx, ?_⟩
  rw [hrx]
  have : pageWidth - MARGIN = MARGIN + contentWidth := by
    norm_num [pageWidth, MARGIN, contentWidth]
  rw [this]
  exact add_lt_add_left hw MARGIN

/-- Witness for C2: the 200-unit-wide token `longToken` placed at the
left margin is emitted as one whole run at the left margin, extending
past the right margin. -/
theorem C2_tokens_atomic_witness :
    ∃ r, (tokenStep 5 unitMetrics false "#000000" longToken
        (sampleState, MARGIN)).1.runs = sampleState.runs ++ [r] ∧
      r.text = longToken.text ∧ r.x = MARGIN ∧
      pageWidth - MARGIN < r.x + unitMetrics.width sampleState.fontName
        sampleState.fontStyle sampleState.fontSize longToken.text :=
  (C2_tokens_atomic 5 unitMetrics false "#000000" sampleState MARGIN
    []).2 longToken (by
      show contentWidth < (((String.mk (List.replicate 200 'a')).length : ℕ) : ℚ)
      rw [show (String.mk (List.replicate 200 'a')).length = 200 from rfl]
      norm_num [contentWidth, pageWidth, MARGIN])

/-- The color policy as the specification words it: an ill-formed color
is replaced by the theme's default text color; dark theme renders black
(or the alias) as the dark-theme light foreground; light theme renders
white (or the alias) as black; every other valid six-digit hex color
passes through unchanged.  Stated from the specification for comparison
with the source-derived `effectiveColor`. -/
def specRenderedColor (th : Theme) (c : String) : String :=
  if th = Theme.dark ∧ (c = "#000000" ∨ c = "black") then DARK_MODE_TEXT
  else if th = Theme.light ∧ (c = "#FFFFFF" ∨ c = "white") then LIGHT_MODE_TEXT
  else if isValidHex c then c
  else if th = Theme.dark then DARK_MODE_TEXT else LIGHT_MODE_TEXT

/-- C5: the per-token color computation of the renderer agrees with the
specification's color policy for every theme and every color string, and
every code run is emitted with exactly that color. -/
theorem C5_color_policy (th : Theme) (c : String) :
    (effectiveColor (th == Theme.dark)
        (if th == Theme.dark then DARK_MODE_TEXT else LIGHT_MODE_TEXT) c
      = specRenderedColor th c)
    ∧ ∀ (LH : ℚ) (m : Metrics) (s : RState) (x : ℚ) (t : HighlightedToken),
        ∃ r, (tokenStep LH m (th == Theme.dark)
            (if th == Theme.dark then DARK_MODE_TEXT else LIGHT_MODE_TEXT) t
            (s, x)).1.runs = s.runs ++ [r] ∧
          r.color = specRenderedColor th t.color := by
  have key : ∀ c' : String, effectiveColor (th == Theme.dark)
      (if th == Theme.dark then DARK_MODE_TEXT else LIGHT_MODE_TEXT) c'
        = specRenderedColor th c' := by
    intro c'
    cases th with
    | dark =>
      by_cases h1 : c' = "#000000"
      · subst h1; decide
      by_cases h2 : c' = "black"
      · subst h2; decide
      simp [effectiveColor, adjustColor, specRenderedColor, h1, h2]
    | light =>
      by_cases h3 : c' = "#FFFFFF"
      · subst h3; decide
      by_cases h4 : c' = "white"
      · subst h4; decide
      simp [effectiveColor, adjustColor, specRenderedColor, h3, h4]
  refine ⟨key c, fun LH m s x t => ?_⟩
  obtain ⟨r, hr, -, hrc, -⟩ := tokenStep_runs LH m (th == Theme.dark)
    (if th == Theme.dark then DARK_MODE_TEXT else LIGHT_MODE_TEXT) t s x
  exact ⟨r, hr, by rw [hrc, key]⟩

/-- C7: the renderer is deterministic — equal inputs (metrics service,
repository name, document, options) give equal serialized outputs; the
model takes no randomness, clock or network input. -/
theorem C7_deterministic (m m' : Metrics) (rn rn' : String)
    (d d' : FormattedRepoData) (o o' : PdfOptions)
    (hm : m = m') (hrn : rn = rn') (hd : d = d') (ho : o = o') :
    generateRepoPdf m rn d o = generateRepoPdf m' rn' d' o' := by
  subst hm hrn hd ho; rfl

/-- Witness for C7 at a concrete input. -/
theorem C7_deterministic_witness :
    generateRepoPdf unitMetrics "repo"
        ⟨"T", ["a.ts"], [⟨"a.ts", "ts", [⟨[⟨"x", "#000000"⟩]⟩]⟩]⟩
        ⟨"Courier", 9, 1, Theme.light⟩
      = generateRepoPdf unitMetrics "repo"
        ⟨"T", ["a.ts"], [⟨"a.ts", "ts", [⟨[⟨"x", "#000000"⟩]⟩]⟩]⟩
        ⟨"Courier", 9, 1, Theme.light⟩ :=
  C7_deterministic unitMetrics unitMetrics "repo" "repo"
    ⟨"T", ["a.ts"], [⟨"a.ts", "ts", [⟨[⟨"x", "#000000"⟩]⟩]⟩]⟩
    ⟨"T", ["a.ts"], [⟨"a.ts", "ts", [⟨[⟨"x", "#000000"⟩]⟩]⟩]⟩
    ⟨"Courier", 9, 1, Theme.light⟩ ⟨"Courier", 9, 1, Theme.light⟩
    rfl rfl rfl rfl

/-! Cursor monotonicity: the page index never decreases, the vertical
cursor only grows while the page is unchanged, and the cursor moves up
only by opening a new page. -/

/-- Monotone evolution from state `s` to state `s2`. -/
def Mono (s s2 : RState) : Prop :=
  s.page ≤ s2.page ∧ (s2.page = s.page → s.y ≤ s2.y) ∧
    (s2.y < s.y → s.page < s2.page)

theorem mono_refl (s : RState) : Mono s s :=
  ⟨le_rfl, fun _ => le_rfl, fun hlt => absurd hlt (lt_irrefl _)⟩

theorem mono_trans {a b c : RState} (h1 : Mono a b) (h2 : Mono b c) :
    Mono a c := by
  obtain ⟨p1, y1, r1⟩ := h1
  obtain ⟨p2, y2, r2⟩ := h2
  refine ⟨le_trans p1 p2, fun hp => ?_, fun hlt => ?_⟩
  · have hb : b.page = a.page := le_antisymm (hp ▸ p2) p1
    exact le_trans (y1 hb) (y2 (by omega))
  · rcases (le_trans p1 p2).lt_or_eq with h | h
    · exact h
    · have hb : b.page = a.page := le_antisymm (by omega) p1
      have := le_trans (y1 hb) (y2 (by omega))
      exact absurd hlt (not_lt.mpr this)

theorem mono_of_page_eq {a b : RState} (hp : b.page = a.page)
    (hy : a.y ≤ b.y) : Mono a b :=
  ⟨le_of_eq hp.symm, fun _ => hy, fun hlt => absurd hy (not_le.mpr hlt)⟩

theorem mono_checkNewPage (s : RState) (h : ℚ) : Mono s (checkNewPage s h) := by
  unfold checkNewPage
  split
  · exact ⟨Nat.le_succ _, fun hp => absurd hp (by simp),
      fun _ => Nat.lt_succ_self _⟩
  · exact mono_refl s

theorem checkNewPage_page_ne {s : RState} {h : ℚ}
    (hp : (checkNewPage s h).page ≠ s.page) : (checkNewPage s h).y = MARGIN := by
  unfold checkNewPage at hp ⊢
  by_cases hc : pageHeight - MARGIN < s.y + h
  · rw [if_pos hc]
  · rw [if_neg hc] at hp
    exact absurd rfl hp

theorem mono_tokenStep (LH : ℚ) (hLH : 0 ≤ LH) (m : Metrics) (d : Bool)
    (deflt : String) (t : HighlightedToken) (s : RState) (x : ℚ) :
    Mono s (tokenStep LH m d deflt t (s, x)).1 := by
  unfold tokenStep checkNewPage
  dsimp only [setTextColor]
  split
  · split
    · exact ⟨Nat.le_succ _, fun hp => absurd hp (by simp),
        fun _ => Nat.lt_succ_self _⟩
    · exact ⟨le_rfl, fun _ => le_add_of_nonneg_right hLH,
        fun hlt => absurd hlt (not_lt.mpr (le_add_of_nonneg_right hLH))⟩
  · exact mono_refl s

theorem mono_processTokens (LH : ℚ) (hLH : 0 ≤ LH) (m : Metrics) (d : Bool)
    (deflt : String) (ts : List HighlightedToken) : ∀ (s : RState) (x : ℚ),
    Mono s (processTokens LH m d deflt (s, x) ts).1 := by
  induction ts with
  | nil => exact fun s x => mono_refl s
  | cons t ts ih =>
    intro s x
    have h1 := mono_tokenStep LH hLH m d deflt t s x
    have h2 := ih (tokenStep LH m d deflt t (s, x)).1
      (tokenStep LH m d deflt t (s, x)).2
    rw [Prod.mk.eta] at h2
    exact mono_trans h1 h2

theorem mono_processLine (LH : ℚ) (hLH : 0 ≤ LH) (m : Metrics) (d : Bool)
    (deflt : String) (s : RState) (line : HighlightedLine) :
    Mono s (processLine LH m d deflt s line) := by
  unfold processLine
  dsimp only
  split
  · exact mono_trans (mono_checkNewPage s LH)
      (mono_of_page_eq rfl (le_add_of_nonneg_right hLH))
  · refine mono_trans (mono_checkNewPage s LH) (mono_trans
      (mono_processTokens LH hLH m d deflt line.tokens (checkNewPage s LH) MARGIN)
      (mono_of_page_eq rfl (le_add_of_nonneg_right hLH)))

theorem mono_processLines (LH : ℚ) (hLH : 0 ≤ LH) (m : Metrics) (d : Bool)
    (deflt : String) (ls : List HighlightedLine) : ∀ s : RState,
    Mono s (processLines LH m d deflt s ls) := by
  induction ls with
  | nil => exact fun s => mono_refl s
  | cons l ls ih =>
    intro s
    exact mono_trans (mono_processLine LH hLH m d deflt s l)
      (ih (processLine LH m d deflt s l))

theorem mono_processFile (LH : ℚ) (hLH : 0 ≤ LH) (m : Metrics) (d : Bool)
    (deflt : String) (fn : String) (fs : ℚ) (s : RState)
    (f : HighlightedFile) : Mono s (processFile LH m d deflt fn fs s f) := by
  unfold processFile
  dsimp only [setFont, setFontSize, setTextColor, emitBlock]
  refine mono_trans (mono_trans
    (mono_of_page_eq (b := { s with y := s.y + 10 }) rfl ?hy10)
    (mono_checkNewPage _ 20)) (mono_trans (mono_of_page_eq ?hpp ?hyy)
      (mono_processLines LH hLH m d deflt f.lines _))
  case hy10 => dsimp only; linarith
  case hpp => rfl
  case hyy =>
    have h6 : (0 : ℚ) ≤ ((m.split fn "bold" 12
        ("File: " ++ f.path ++ " (" ++ f.language ++ ")") contentWidth).length : ℚ) * 6 :=
      mul_nonneg (Nat.cast_nonneg _) (by norm_num)
    dsimp only
    linarith

theorem mono_processFiles (LH : ℚ) (hLH : 0 ≤ LH) (m : Metrics) (d : Bool)
    (deflt : String) (fn : String) (fsz : ℚ) (files : List HighlightedFile) :
    ∀ s : RState, Mono s (processFiles LH m d deflt fn fsz s files) := by
  induction files with
  | nil => exact fun s => mono_refl s
  | cons f files ih =>
    intro s
    exact mono_trans (mono_processFile LH hLH m d deflt fn fsz s f)
      (ih (processFile LH m d deflt fn fsz s f))

theorem mono_processTocEntry (LH : ℚ) (hLH : 0 ≤ LH) (m : Metrics)
    (s : RState) (p : String) : Mono s (processTocEntry LH m s p) := by
  unfold processTocEntry
  dsimp only [emitBlock]
  refine mono_trans (mono_checkNewPage _ _)
    (mono_of_page_eq rfl (le_add_of_nonneg_right
      (mul_nonneg (Nat.cast_nonneg _) hLH)))

theorem mono_processTocEntries (LH : ℚ) (hLH : 0 ≤ LH) (m : Metrics)
    (ps : List String) : ∀ s : RState,
    Mono s (processTocEntries LH m s ps) := by
  induction ps with
  | nil => exact fun s => mono_refl s
  | cons p ps ih =>
    intro s
    exact mono_trans (mono_processTocEntry LH hLH m s p)
      (ih (processTocEntry LH m s p))

theorem mono_titlePhase (m : Metrics) (data : FormattedRepoData)
    (o : PdfOptions) (s0 : RState) : Mono s0 (titlePhase m data o s0) := by
  unfold titlePhase
  dsimp only [setFont, setFontSize, emitBlock]
  refine mono_trans (mono_trans
    (mono_of_page_eq
      (b := { s0 with fontName := o.font, fontStyle := "bold", fontSize := 24 })
      rfl le_rfl)
    (mono_checkNewPage _
      (((m.split o.font "bold" 24 data.title contentWidth).length : ℚ) * 12)))
    (mono_of_page_eq ?hpp ?hyy)
  case hpp => rfl
  case hyy =>
    have h12 : (0 : ℚ) ≤ ((m.split o.font "bold" 24 data.title
        contentWidth).length : ℚ) * 12 :=
      mul_nonneg (Nat.cast_nonneg _) (by norm_num)
    dsimp only
    linarith

theorem mono_tocHeadPhase (m : Metrics) (o : PdfOptions) (s : RState) :
    Mono s (tocHeadPhase m o s) := by
  unfold tocHeadPhase
  dsimp only [setFont, setFontSize, setTextColor, emitBlock]
  refine mono_trans (mono_trans
    (mono_of_page_eq
      (b := { s with color :=
        if o.theme == Theme.dark then DARK_MODE_TEXT else LIGHT_MODE_TEXT })
      rfl le_rfl)
    (mono_checkNewPage _ 20)) (mono_of_page_eq ?hpp ?hyy)
  case hpp => rfl
  case hyy => dsimp only; linarith

theorem mono_renderBody (m : Metrics) (data : FormattedRepoData)
    (o : PdfOptions) (ho1 : 0 ≤ o.fontSize) (ho2 : 0 ≤ o.lineSpacing)
    (s0 : RState) : Mono s0 (renderBody m data o s0) := by
  have hLH : 0 ≤ o.fontSize * (1 / 2) * o.lineSpacing :=
    mul_nonneg (mul_nonneg ho1 (by norm_num)) ho2
  unfold renderBody
  dsimp only
  exact mono_trans (mono_titlePhase m data o s0) (mono_trans
    (mono_tocHeadPhase m o _) (mono_trans
      (mono_processTocEntries _ hLH m data.tableOfContents _)
      (mono_processFiles _ hLH m _ _ o.font o.fontSize data.files _)))

/-- C9: the render cursor is mutated monotonically: across the page-break
check, each token placement, each line, each file and the whole render
body, the page index never decreases, the vertical position never
decreases while the page is unchanged, a drop of the vertical position
implies a page advance, and the page-break check resets the vertical
position to the top margin exactly when it opens a new page. -/
theorem C9_cursor_monotonic (LH : ℚ) (hLH : 0 ≤ LH) (m : Metrics)
    (isDark : Bool) (deflt fn : String) (fsz : ℚ) (s : RState) (h : ℚ)
    (x : ℚ) (t : HighlightedToken) (line : HighlightedLine)
    (f : HighlightedFile) (o : PdfOptions) (ho1 : 0 ≤ o.fontSize)
    (ho2 : 0 ≤ o.lineSpacing) (data : FormattedRepoData) :
    Mono s (checkNewPage s h)
    ∧ ((checkNewPage s h).page ≠ s.page → (checkNewPage s h).y = MARGIN)
    ∧ Mono s (tokenStep LH m isDark deflt t (s, x)).1
    ∧ Mono s (processLine LH m isDark deflt s line)
    ∧ Mono s (processFile LH m isDark deflt fn fsz s f)
    ∧ Mono s (renderBody m data o s) :=
  ⟨mono_checkNewPage s h, checkNewPage_page_ne,
    mono_tokenStep LH hLH m isDark deflt t s x,
    mono_processLine LH hLH m isDark deflt s line,
    mono_processFile LH hLH m isDark deflt fn fsz s f,
    mono_renderBody m data o ho1 ho2 s⟩

/-- Witness for C9 at concrete values. -/
theorem C9_cursor_monotonic_witness :
    Mono sampleState (checkNewPage sampleState 20)
    ∧ ((checkNewPage sampleState 20).page ≠ sampleState.page →
        (checkNewPage sampleState 20).y = MARGIN)
    ∧ Mono sampleState
        (tokenStep 5 unitMetrics false "#000000" ⟨"x", "#000000"⟩
          (sampleState, MARGIN)).1
    ∧ Mono sampleState
        (processLine 5 unitMetrics false "#000000" sampleState ⟨[]⟩)
    ∧ Mono sampleState
        (processFile 5 unitMetrics false "#000000" "Courier" 9 sampleState
          ⟨"a.ts", "ts", []⟩)
    ∧ Mono sampleState
        (renderBody unitMetrics ⟨"T", [], []⟩ ⟨"Courier", 9, 1, Theme.light⟩
          sampleState) :=
  C9_cursor_monotonic 5 (by norm_num) unitMetrics false "#000000" "Courier" 9
    sampleState 20 MARGIN ⟨"x", "#000000"⟩ ⟨[]⟩ ⟨"a.ts", "ts", []⟩
    ⟨"Courier", 9, 1, Theme.light⟩ (by norm_num) (by norm_num) ⟨"T", [], []⟩

/-! Vertical advance of one logical line while no page break fires. -/

theorem tokenStep_page_le (LH : ℚ) (m : Metrics) (d : Bool) (deflt : String)
    (t : HighlightedToken) (s : RState) (x : ℚ) :
    s.page ≤ (tokenStep LH m d deflt t (s, x)).1.page := by
  unfold tokenStep checkNewPage
  dsimp only [setTextColor]
  split
  · split
    · exact Nat.le_succ _
    · exact le_rfl
  · exact le_rfl

theorem processTokens_page_le (LH : ℚ) (m : Metrics) (d : Bool)
    (deflt : String) (ts : List HighlightedToken) : ∀ (s : RState) (x : ℚ),
    s.page ≤ (processTokens LH m d deflt (s, x) ts).1.page := by
  induction ts with
  | nil => exact fun s x => le_rfl
  | cons t ts ih =>
    intro s x
    have h1 := tokenStep_page_le LH m d deflt t s x
    have h2 := ih (tokenStep LH m d deflt t (s, x)).1
      (tokenStep LH m d deflt t (s, x)).2
    rw [Prod.mk.eta] at h2
    exact le_trans h1 h2

theorem tokenStep_yrow_of_page_eq (LH : ℚ) (m : Metrics) (d : Bool)
    (deflt : String) (t : HighlightedToken) (s : RState) (x : ℚ)
    (hp : (tokenStep LH m d deflt t (s, x)).1.page = s.page) :
    ∃ j : ℕ, (tokenStep LH m d deflt t (s, x)).1.row = s.row + j ∧
      (tokenStep LH m d deflt t (s, x)).1.y = s.y + (j : ℚ) * LH := by
  unfold tokenStep checkNewPage at hp ⊢
  dsimp only [setTextColor] at hp ⊢
  by_cases hc : MARGIN < x ∧
      pageWidth - MARGIN < x + m.width s.fontName s.fontStyle s.fontSize t.text
  · rw [if_pos hc] at hp ⊢
    by_cases hb : pageHeight - MARGIN < s.y + LH + LH
    · rw [if_pos hb] at hp
      dsimp only at hp
      omega
    · rw [if_neg hb]
      refine ⟨1, rfl, ?_⟩
      dsimp only
      push_cast
      ring
  · rw [if_neg hc]
    refine ⟨0, rfl, ?_⟩
    dsimp only
    push_cast
    ring

theorem processTokens_yrow_of_page_eq (LH : ℚ) (m : Metrics) (d : Bool)
    (deflt : String) (ts : List HighlightedToken) : ∀ (s : RState) (x : ℚ),
    (processTokens LH m d deflt (s, x) ts).1.page = s.page →
    ∃ k : ℕ, (processTokens LH m d deflt (s, x) ts).1.row = s.row + k ∧
      (processTokens LH m d deflt (s, x) ts).1.y = s.y + (k : ℚ) * LH := by
  induction ts with
  | nil =>
    intro s x _
    refine ⟨0, rfl, ?_⟩
    show s.y = s.y + ((0 : ℕ) : ℚ) * LH
    push_cast
    ring
  | cons t ts ih =>
    intro s x hp
    have h1 := tokenStep_page_le LH m d deflt t s x
    have h2 := processTokens_page_le LH m d deflt ts
      (tokenStep LH m d deflt t (s, x)).1 (tokenStep LH m d deflt t (s, x)).2
    rw [Prod.mk.eta] at h2
    have hpe : (tokenStep LH m d deflt t (s, x)).1.page = s.page := by
      have hp2 : (processTokens LH m d deflt
          (tokenStep LH m d deflt t (s, x)) ts).1.page = s.page := hp
      omega
    obtain ⟨j, hr1, hy1⟩ := tokenStep_yrow_of_page_eq LH m d deflt t s x hpe
    have ih2 := ih (tokenStep LH m d deflt t (s, x)).1
      (tokenStep LH m d deflt t (s, x)).2
    rw [Prod.mk.eta] at ih2
    obtain ⟨k, hr2, hy2⟩ := ih2 (by
      have hp2 : (processTokens LH m d deflt
          (tokenStep LH m d deflt t (s, x)) ts).1.page = s.page := hp
      omega)
    refine ⟨j + k, ?_, ?_⟩
    · show (processTokens LH m d deflt
          (tokenStep LH m d deflt t (s, x)) ts).1.row = s.row + (j + k)
      rw [hr2, hr1]
      omega
    · show (processTokens LH m d deflt
          (tokenStep LH m d deflt t (s, x)) ts).1.y = s.y + ((j + k : ℕ) : ℚ) * LH
      rw [hy2, hy1]
      push_cast
      ring

/-- C6: if a logical line is processed without triggering a page break
(the page is unchanged), the vertical position afterwards has advanced by
exactly one line-height more than the rows added by wrapping (the ghost
row counter advanced by `k + 1` and the vertical position by
`(k + 1) * LH`); a line with zero tokens advances by exactly one
line-height (`k = 0`) and emits no runs. -/
theorem C6_line_height_advance (LH : ℚ) (m : Metrics) (isDark : Bool)
    (deflt : String) (s : RState) (line : HighlightedLine)
    (hpage : (processLine LH m isDark deflt s line).page = s.page) :
    ∃ k : ℕ,
      (processLine LH m isDark deflt s line).row = s.row + k + 1 ∧
      (processLine LH m isDark deflt s line).y = s.y + ((k : ℚ) + 1) * LH ∧
      (line.tokens = [] → k = 0 ∧
        (processLine LH m isDark deflt s line).runs = s.runs) := by
  have hle1 : s.page ≤ (checkNewPage s LH).page := (mono_checkNewPage s LH).1
  have hle2 : (checkNewPage s LH).page ≤ (processLine LH m isDark deflt s line).page := by
    unfold processLine
    dsimp only
    split
    · exact le_rfl
    · exact processTokens_page_le LH m isDark deflt line.tokens
        (checkNewPage s LH) MARGIN
  have hs1 : checkNewPage s LH = s := checkNewPage_page_eq (by omega)
  by_cases hb : line.tokens = []
  · refine ⟨0, ?_, ?_, fun _ => ⟨rfl, ?_⟩⟩
    · unfold processLine
      rw [hs1, if_pos hb]
    · unfold processLine
      rw [hs1, if_pos hb]
      dsimp only
      push_cast
      ring
    · unfold processLine
      rw [hs1, if_pos hb]
  · have hptp : (processTokens LH m isDark deflt (checkNewPage s LH, MARGIN)
        line.tokens).1.page = (checkNewPage s LH).page := by
      have : (processLine LH m isDark deflt s line).page =
          (processTokens LH m isDark deflt (checkNewPage s LH, MARGIN)
            line.tokens).1.page := by
        unfold processLine
        rw [if_neg hb]
      rw [hs1] at this ⊢
      omega
    obtain ⟨k, hr, hy⟩ := processTokens_yrow_of_page_eq LH m isDark deflt
      line.tokens (checkNewPage s LH) MARGIN hptp
    rw [hs1] at hr hy
    refine ⟨k, ?_, ?_, fun hc => absurd hc hb⟩
    · unfold processLine
      rw [hs1, if_neg hb]
      dsimp only
      rw [hr]
    · unfold processLine
      rw [hs1, if_neg hb]
      dsimp only
      rw [hy]
      ring

/-- Witness for C6: a blank line at the sample state advances the
vertical cursor by one line-height and emits no runs. -/
theorem C6_line_height_advance_witness :
    ∃ k : ℕ,
      (processLine 5 unitMetrics false "#000000" sampleState ⟨[]⟩).row =
        sampleState.row + k + 1 ∧
      (processLine 5 unitMetrics false "#000000" sampleState ⟨[]⟩).y =
        sampleState.y + ((k : ℚ) + 1) * 5 ∧
      (HighlightedLine.mk [] = (⟨[]⟩ : HighlightedLine) → k = 0 ∧
        (processLine 5 unitMetrics false "#000000" sampleState ⟨[]⟩).runs =
          sampleState.runs) := by
  have h := C6_line_height_advance 5 unitMetrics false "#000000" sampleState ⟨[]⟩
    (by norm_num [processLine, checkNewPage, sampleState, MARGIN, pageHeight])
  obtain ⟨k, h1, h2, h3⟩ := h
  exact ⟨k, h1, h2, fun _ => h3 rfl⟩

/-! Color validity: every emitted run carries a valid six-digit hex
color, because the regex fallback absorbs every malformed token color
and every other emission uses a theme constant. -/

/-- Facts about the runs of one text block. -/
theorem mem_blockRuns {k : RunKind} {x y adv : ℚ} {c : String} {p : ℕ} :
    ∀ {i : ℕ} {ls : List String} {r : Run}, r ∈ blockRuns k x y adv c p i ls →
    r.color = c ∧ r.kind = k ∧ r.page = p ∧ i ≤ r.blockLine ∧
      r.y = y + (r.blockLine : ℚ) * adv := by
  intro i ls
  induction ls generalizing i with
  | nil => intro r h; simp [blockRuns] at h
  | cons t ts ih =>
    intro r h
    rw [blockRuns] at h
    rcases List.mem_cons.mp h with h | h
    · subst h
      exact ⟨rfl, rfl, rfl, le_rfl, rfl⟩
    · obtain ⟨h1, h2, h3, h4, h5⟩ := ih h
      exact ⟨h1, h2, h3, by omega, h5⟩

/-- The texts of a text block are exactly the given wrapped lines. -/
theorem blockRuns_texts (k : RunKind) (x y adv : ℚ) (c : String) (p : ℕ) :
    ∀ (i : ℕ) (ls : List String),
    (blockRuns k x y adv c p i ls).map Run.text = ls := by
  intro i ls
  induction ls generalizing i with
  | nil => rw [blockRuns]; rfl
  | cons t ts ih => rw [blockRuns]; simp [ih]

/-- A state in which the active text color and all emitted runs carry
valid six-digit hex colors. -/
def ColorOk (s : RState) : Prop :=
  isValidHex s.color = true ∧ ∀ r ∈ s.runs, isValidHex r.color = true

theorem effectiveColor_valid (d : Bool) (deflt c : String)
    (hd : isValidHex deflt = true) :
    isValidHex (effectiveColor d deflt c) = true := by
  unfold effectiveColor
  dsimp only
  split
  · assumption
  · exact hd

theorem deflt_valid (o : PdfOptions) :
    isValidHex (if o.theme == Theme.dark then DARK_MODE_TEXT
      else LIGHT_MODE_TEXT) = true := by
  cases o.theme <;> decide

theorem colorok_checkNewPage {s : RState} (h : ℚ) (hs : ColorOk s) :
    ColorOk (checkNewPage s h) := by
  refine ⟨?_, ?_⟩
  · rw [checkNewPage_color]; exact hs.1
  · rw [checkNewPage_runs]; exact hs.2

theorem runs_ok_append {P : Run → Prop} {l1 l2 : List Run}
    (h1 : ∀ r ∈ l1, P r) (h2 : ∀ r ∈ l2, P r) : ∀ r ∈ l1 ++ l2, P r := by
  intro r hr
  rcases List.mem_append.mp hr with h | h
  · exact h1 r h
  · exact h2 r h

theorem colorok_emitBlock {s : RState} (k : RunKind) (adv x : ℚ)
    (ls : List String) (hs : ColorOk s) : ColorOk (emitBlock s k adv x ls) := by
  refine ⟨hs.1, ?_⟩
  unfold emitBlock
  dsimp only
  refine runs_ok_append hs.2 (fun r hr => ?_)
  rw [(mem_blockRuns hr).1]
  exact hs.1

theorem colorok_tokenStep (LH : ℚ) (m : Metrics) (d : Bool) (deflt : String)
    (hd : isValidHex deflt = true) (t : HighlightedToken) (s : RState) (x : ℚ)
    (hs : ColorOk s) : ColorOk (tokenStep LH m d deflt t (s, x)).1 := by
  have hcol := effectiveColor_valid d deflt t.color hd
  unfold tokenStep checkNewPage
  dsimp only [setTextColor]
  split
  · split
    · exact ⟨hcol, runs_ok_append hs.2 (by simp [hcol])⟩
    · exact ⟨hcol, runs_ok_append hs.2 (by simp [hcol])⟩
  · exact ⟨hcol, runs_ok_append hs.2 (by simp [hcol])⟩

theorem colorok_processTokens (LH : ℚ) (m : Metrics) (d : Bool)
    (deflt : String) (hd : isValidHex deflt = true)
    (ts : List HighlightedToken) : ∀ (s : RState) (x : ℚ), ColorOk s →
    ColorOk (processTokens LH m d deflt (s, x) ts).1 := by
  induction ts with
  | nil => exact fun s x hs => hs
  | cons t ts ih =>
    intro s x hs
    have h2 := ih (tokenStep LH m d deflt t (s, x)).1
      (tokenStep LH m d deflt t (s, x)).2
      (colorok_tokenStep LH m d deflt hd t s x hs)
    rw [Prod.mk.eta] at h2
    exact h2

theorem colorok_processLine (LH : ℚ) (m : Metrics) (d : Bool)
    (deflt : String) (hd : isValidHex deflt = true) (s : RState)
    (line : HighlightedLine) (hs : ColorOk s) :
    ColorOk (processLine LH m d deflt s line) := by
  unfold processLine
  dsimp only
  split
  · exact colorok_checkNewPage LH hs
  · exact colorok_processTokens LH m d deflt hd line.tokens _ MARGIN
      (colorok_checkNewPage LH hs)

theorem colorok_processLines (LH : ℚ) (m : Metrics) (d : Bool)
    (deflt : String) (hd : isValidHex deflt = true)
    (ls : List HighlightedLine) : ∀ s : RState, ColorOk s →
    ColorOk (processLines LH m d deflt s ls) := by
  induction ls with
  | nil => exact fun s hs => hs
  | cons l ls ih =>
    exact fun s hs => ih _ (colorok_processLine LH m d deflt hd s l hs)

theorem colorok_processFile (LH : ℚ) (m : Metrics) (d : Bool)
    (deflt : String) (hd : isValidHex deflt = true) (fn : String) (fsz : ℚ)
    (s : RState) (f : HighlightedFile) (hs : ColorOk s) :
    ColorOk (processFile LH m d deflt fn fsz s f) := by
  unfold processFile
  dsimp only [setFont, setFontSize, setTextColor, emitBlock]
  refine colorok_processLines LH m d deflt hd f.lines _ ⟨hd, ?_⟩
  simp only [checkNewPage_runs]
  refine runs_ok_append hs.2 (fun r hr => ?_)
  rw [(mem_blockRuns hr).1]
  exact hd

theorem colorok_processFiles (LH : ℚ) (m : Metrics) (d : Bool)
    (deflt : String) (hd : isValidHex deflt = true) (fn : String) (fsz : ℚ)
    (files : List HighlightedFile) : ∀ s : RState, ColorOk s →
    ColorOk (processFiles LH m d deflt fn fsz s files) := by
  induction files with
  | nil => exact fun s hs => hs
  | cons f files ih =>
    exact fun s hs => ih _ (colorok_processFile LH m d deflt hd fn fsz s f hs)

theorem colorok_processTocEntry (LH : ℚ) (m : Metrics) (s : RState)
    (p : String) (hs : ColorOk s) : ColorOk (processTocEntry LH m s p) := by
  unfold processTocEntry
  dsimp only [emitBlock]
  refine ⟨?_, ?_⟩
  · simp only [checkNewPage_color]
    exact hs.1
  · simp only [checkNewPage_runs, checkNewPage_color]
    refine runs_ok_append hs.2 (fun r hr => ?_)
    rw [(mem_blockRuns hr).1]
    exact hs.1

theorem colorok_processTocEntries (LH : ℚ) (m : Metrics) (ps : List String) :
    ∀ s : RState, ColorOk s → ColorOk (processTocEntries LH m s ps) := by
  induction ps with
  | nil => exact fun s hs => hs
  | cons p ps ih =>
    exact fun s hs => ih _ (colorok_processTocEntry LH m s p hs)

theorem colorok_titlePhase (m : Metrics) (data : FormattedRepoData)
    (o : PdfOptions) (s : RState) (hs : ColorOk s) :
    ColorOk (titlePhase m data o s) := by
  unfold titlePhase
  dsimp only [setFont, setFontSize, emitBlock]
  refine ⟨?_, ?_⟩
  · simp only [checkNewPage_color]
    exact hs.1
  · simp only [checkNewPage_runs, checkNewPage_color]
    refine runs_ok_append hs.2 (fun r hr => ?_)
    rw [(mem_blockRuns hr).1]
    exact hs.1

theorem colorok_tocHeadPhase (m : Metrics) (o : PdfOptions) (s : RState)
    (hs : ColorOk s) : ColorOk (tocHeadPhase m o s) := by
  unfold tocHeadPhase
  dsimp only [setFont, setFontSize, setTextColor, emitBlock]
  refine ⟨?_, ?_⟩
  · simp only [checkNewPage_color]
    exact deflt_valid o
  · simp only [checkNewPage_runs, checkNewPage_color]
    refine runs_ok_append hs.2 (fun r hr => ?_)
    rw [(mem_blockRuns hr).1]
    exact deflt_valid o

/-- C10: the renderer is total over its input type — the model is a total
function for every document (arbitrary color strings, empty token texts,
token-free lines, empty table of contents) and every option record — and
every emitted run of the serialized output carries a valid six-digit hex
color: malformed colors are absorbed by the regex fallback to the
theme's default text color before any drawing happens. -/
theorem C10_total_valid_colors (m : Metrics) (rn : String)
    (data : FormattedRepoData) (o : PdfOptions) :
    ∀ r ∈ (generateRepoPdf m rn data o).runs, isValidHex r.color = true := by
  have hinit : ColorOk (initState o) := by
    refine ⟨deflt_valid o, ?_⟩
    intro r hr
    simp [initState] at hr
  have h := colorok_processFiles (o.fontSize * (1 / 2) * o.lineSpacing) m
    (o.theme == Theme.dark)
    (if o.theme == Theme.dark then DARK_MODE_TEXT else LIGHT_MODE_TEXT)
    (deflt_valid o) o.font o.fontSize data.files _
    (colorok_processTocEntries (o.fontSize * (1 / 2) * o.lineSpacing) m
      data.tableOfContents _
      (colorok_tocHeadPhase m o _ (colorok_titlePhase m data o _ hinit)))
  exact h.2

/-- The first title run of a concrete rendered sample document. -/
theorem sampleRun_mem :
    Run.mk "T" 15 15 "#000000" 0 RunKind.title 0 ∈
      (generateRepoPdf unitMetrics "repo" ⟨"T", [], []⟩
        ⟨"Courier", 9, 1, Theme.light⟩).runs := by
  norm_num [generateRepoPdf, renderState, renderBody, titlePhase, tocHeadPhase,
    processTocEntries, processFiles, initState, unitMetrics, checkNewPage,
    emitBlock, blockRuns, setFont, setFontSize, setTextColor, MARGIN,
    pageHeight, contentWidth, LIGHT_MODE_TEXT, DARK_MODE_TEXT]
  rw [if_neg (by decide : ¬(Theme.light = Theme.dark))]

/-- Witness for C10 at a concrete run of a concrete rendered document:
its color is a valid hex color. -/
theorem C10_total_valid_colors_witness :
    isValidHex (Run.mk "T" 15 15 "#000000" 0 RunKind.title 0).color = true :=
  C10_total_valid_colors unitMetrics "repo" ⟨"T", [], []⟩
    ⟨"Courier", 9, 1, Theme.light⟩
    (Run.mk "T" 15 15 "#000000" 0 RunKind.title 0) sampleRun_mem

/-! Structure of the runs emitted by the title and table-of-contents
phases, and the degenerate empty-document render. -/

theorem processFiles_nil (LH : ℚ) (m : Metrics) (d : Bool) (deflt : String)
    (fn : String) (fsz : ℚ) (s : RState) :
    processFiles LH m d deflt fn fsz s [] = s := rfl

theorem titlePhase_runs_char (m : Metrics) (data : FormattedRepoData)
    (o : PdfOptions) (s : RState) :
    ∃ bl, (titlePhase m data o s).runs = s.runs ++ bl ∧
      bl.map Run.text = m.split o.font "bold" 24 data.title contentWidth ∧
      ∀ r ∈ bl, r.kind = RunKind.title := by
  unfold titlePhase
  dsimp only [setFont, setFontSize, emitBlock]
  simp only [checkNewPage_runs]
  exact ⟨_, rfl, blockRuns_texts _ _ _ _ _ _ _ _,
    fun r hr => (mem_blockRuns hr).2.1⟩

theorem tocHeadPhase_runs_char (m : Metrics) (o : PdfOptions) (s : RState) :
    ∃ bl, (tocHeadPhase m o s).runs = s.runs ++ bl ∧
      bl.map Run.text = ["Table of Contents"] ∧
      ∀ r ∈ bl, r.kind = RunKind.tocHeading := by
  unfold tocHeadPhase
  dsimp only [setFont, setFontSize, setTextColor, emitBlock]
  simp only [checkNewPage_runs]
  exact ⟨_, rfl, blockRuns_texts _ _ _ _ _ _ _ _,
    fun r hr => (mem_blockRuns hr).2.1⟩

theorem processTocEntry_runs_char (LH : ℚ) (m : Metrics) (s : RState)
    (p : String) :
    ∃ bl, (processTocEntry LH m s p).runs = s.runs ++ bl ∧
      ∀ r ∈ bl, r.kind = RunKind.tocEntry := by
  unfold processTocEntry
  dsimp only [emitBlock]
  simp only [checkNewPage_runs]
  exact ⟨_, rfl, fun r hr => (mem_blockRuns hr).2.1⟩

theorem processTocEntries_runs_char (LH : ℚ) (m : Metrics)
    (ps : List String) : ∀ s : RState,
    ∃ bl, (processTocEntries LH m s ps).runs = s.runs ++ bl ∧
      ∀ r ∈ bl, r.kind = RunKind.tocEntry := by
  induction ps with
  | nil => exact fun s => ⟨[], by simp [processTocEntries], fun r hr => by cases hr⟩
  | cons p ps ih =>
    intro s
    obtain ⟨bl1, h1, hk1⟩ := processTocEntry_runs_char LH m s p
    obtain ⟨bl2, h2, hk2⟩ := ih (processTocEntry LH m s p)
    refine ⟨bl1 ++ bl2, ?_, runs_ok_append hk1 hk2⟩
    show (processTocEntries LH m (processTocEntry LH m s p) ps).runs = _
    rw [h2, h1, List.append_assoc]

/-- C8: with an empty `files` sequence the renderer still returns a
serialized document: the output contains the title block and the Table
of Contents (heading and entries) and no file sections (no separator
runs and no code runs). -/
theorem C8_empty_files (m : Metrics) (rn : String) (data : FormattedRepoData)
    (o : PdfOptions) (h : data.files = []) :
    (∀ r ∈ (generateRepoPdf m rn data o).runs,
      r.kind ≠ RunKind.separator ∧ r.kind ≠ RunKind.code)
    ∧ ((generateRepoPdf m rn data o).runs.filter
        (fun r => r.kind == RunKind.title)).map Run.text
      = m.split o.font "bold" 24 data.title contentWidth
    ∧ ((generateRepoPdf m rn data o).runs.filter
        (fun r => r.kind == RunKind.tocHeading)).map Run.text
      = ["Table of Contents"] := by
  obtain ⟨blT, hT, hTtext, hTkind⟩ := titlePhase_runs_char m data o (initState o)
  obtain ⟨blH, hH, hHtext, hHkind⟩ :=
    tocHeadPhase_runs_char m o (titlePhase m data o (initState o))
  obtain ⟨blE, hE, hEkind⟩ := processTocEntries_runs_char
    (o.fontSize * (1 / 2) * o.lineSpacing) m data.tableOfContents
    (tocHeadPhase m o (titlePhase m data o (initState o)))
  have hruns : (generateRepoPdf m rn data o).runs = blT ++ blH ++ blE := by
    show (renderState m rn data o).runs = _
    unfold renderState renderBody
    dsimp only
    rw [h, processFiles_nil, hE, hH, hT]
    simp [initState]
  rw [hruns]
  refine ⟨?_, ?_, ?_⟩
  · intro r hr
    rcases List.mem_append.mp hr with hr | hr
    · rcases List.mem_append.mp hr with hr | hr
      · rw [hTkind r hr]; exact ⟨by decide, by decide⟩
      · rw [hHkind r hr]; exact ⟨by decide, by decide⟩
    · rw [hEkind r hr]; exact ⟨by decide, by decide⟩
  · rw [List.filter_append, List.filter_append,
      List.filter_eq_self.mpr (fun r hr => by rw [hTkind r hr]; rfl),
      List.filter_eq_nil_iff.mpr (fun r hr => by rw [hHkind r hr]; decide),
      List.filter_eq_nil_iff.mpr (fun r hr => by rw [hEkind r hr]; decide),
      List.append_nil, List.append_nil]
    exact hTtext
  · rw [List.filter_append, List.filter_append,
      List.filter_eq_nil_iff.mpr (fun r hr => by rw [hTkind r hr]; decide),
      List.filter_eq_self.mpr (fun r hr => by rw [hHkind r hr]; rfl),
      List.filter_eq_nil_iff.mpr (fun r hr => by rw [hEkind r hr]; decide),
      List.nil_append, List.append_nil]
    exact hHtext

/-- Witness for C8 on a concrete empty-files document. -/
theorem C8_empty_files_witness :
    (∀ r ∈ (generateRepoPdf unitMetrics "repo"
        ⟨"T", ["a.ts"], []⟩ ⟨"Courier", 9, 1, Theme.light⟩).runs,
      r.kind ≠ RunKind.separator ∧ r.kind ≠ RunKind.code)
    ∧ ((generateRepoPdf unitMetrics "repo"
        ⟨"T", ["a.ts"], []⟩ ⟨"Courier", 9, 1, Theme.light⟩).runs.filter
        (fun r => r.kind == RunKind.title)).map Run.text
      = unitMetrics.split "Courier" "bold" 24 "T" contentWidth
    ∧ ((generateRepoPdf unitMetrics "repo"
        ⟨"T", ["a.ts"], []⟩ ⟨"Courier", 9, 1, Theme.light⟩).runs.filter
        (fun r => r.kind == RunKind.tocHeading)).map Run.text
      = ["Table of Contents"] :=
  C8_empty_files unitMetrics "repo" ⟨"T", ["a.ts"], []⟩
    ⟨"Courier", 9, 1, Theme.light⟩ rfl

/-! Vertical bounds of emitted runs. -/

/-- A run whose vertical position is below the top margin, and — when it
is a code run or the anchor (first) line of its text block — above the
bottom margin. -/
def RunOk (r : Run) : Prop :=
  MARGIN ≤ r.y ∧
    ((r.kind = RunKind.code ∨ r.blockLine = 0) → r.y ≤ pageHeight - MARGIN)

/-- A state whose cursor is below the top margin and whose emitted runs
are all in bounds. -/
def YOk (s : RState) : Prop := MARGIN ≤ s.y ∧ ∀ r ∈ s.runs, RunOk r

theorem cnp_y_le (s : RState) {needed : ℚ} (h : 0 ≤ needed) :
    (checkNewPage s needed).y ≤ pageHeight - MARGIN := by
  unfold checkNewPage
  split
  · dsimp only
    norm_num [MARGIN, pageHeight]
  · next hc =>
    push_neg at hc
    linarith

theorem cnp_y_lower (s : RState) (needed : ℚ) (h : MARGIN ≤ s.y) :
    MARGIN ≤ (checkNewPage s needed).y := by
  unfold checkNewPage
  split
  · exact le_rfl
  · exact h

theorem blockRuns_runok {k : RunKind} {x y adv : ℚ} {c : String} {p : ℕ}
    {ls : List String} (hk : k ≠ RunKind.code) (h1 : MARGIN ≤ y)
    (h2 : y ≤ pageHeight - MARGIN) (hadv : 0 ≤ adv) :
    ∀ r ∈ blockRuns k x y adv c p 0 ls, RunOk r := by
  intro r hr
  obtain ⟨-, hkind, -, -, hy⟩ := mem_blockRuns hr
  constructor
  · rw [hy]
    have := mul_nonneg (Nat.cast_nonneg (α := ℚ) r.blockLine) hadv
    linarith
  · intro hcase
    rcases hcase with hc | hc
    · rw [hkind] at hc
      exact absurd hc hk
    · rw [hy, hc]
      push_cast
      linarith

/-- Invariant of the token loop: the cursor additionally stays above the
bottom margin while tokens are being placed on the current row. -/
def TokOk (s : RState) : Prop :=
  MARGIN ≤ s.y ∧ s.y ≤ pageHeight - MARGIN ∧ ∀ r ∈ s.runs, RunOk r

theorem tokok_tokenStep (LH : ℚ) (hLH : 0 ≤ LH) (m : Metrics) (d : Bool)
    (deflt : String) (t : HighlightedToken) (s : RState) (x : ℚ)
    (hs : TokOk s) : TokOk (tokenStep LH m d deflt t (s, x)).1 := by
  obtain ⟨hy1, hy2, hruns⟩ := hs
  unfold tokenStep checkNewPage
  dsimp only [setTextColor]
  split
  · split
    · refine ⟨le_rfl, by norm_num [MARGIN, pageHeight], runs_ok_append hruns ?_⟩
      intro r hr
      rcases List.mem_singleton.mp hr with rfl
      exact ⟨le_rfl, fun _ => by norm_num [MARGIN, pageHeight]⟩
    · next hb =>
      push_neg at hb
      refine ⟨by dsimp only; linarith, by dsimp only; linarith,
        runs_ok_append hruns ?_⟩
      intro r hr
      rcases List.mem_singleton.mp hr with rfl
      exact ⟨by dsimp only; linarith, fun _ => by dsimp only; linarith⟩
  · refine ⟨hy1, hy2, runs_ok_append hruns ?_⟩
    intro r hr
    rcases List.mem_singleton.mp hr with rfl
    exact ⟨hy1, fun _ => hy2⟩

theorem tokok_processTokens (LH : ℚ) (hLH : 0 ≤ LH) (m : Metrics) (d : Bool)
    (deflt : String) (ts : List HighlightedToken) : ∀ (s : RState) (x : ℚ),
    TokOk s → TokOk (processTokens LH m d deflt (s, x) ts).1 := by
  induction ts with
  | nil => exact fun s x hs => hs
  | cons t ts ih =>
    intro s x hs
    have h2 := ih (tokenStep LH m d deflt t (s, x)).1
      (tokenStep LH m d deflt t (s, x)).2
      (tokok_tokenStep LH hLH m d deflt t s x hs)
    rw [Prod.mk.eta] at h2
    exact h2

theorem yok_processLine (LH : ℚ) (hLH : 0 ≤ LH) (m : Metrics) (d : Bool)
    (deflt : String) (s : RState) (line : HighlightedLine) (hs : YOk s) :
    YOk (processLine LH m d deflt s line) := by
  have hlow := cnp_y_lower s LH hs.1
  have hup := cnp_y_le s hLH
  unfold processLine
  dsimp only
  split
  · refine ⟨by dsimp only; linarith, ?_⟩
    simp only [checkNewPage_runs]
    exact hs.2
  · have h := tokok_processTokens LH hLH m d deflt line.tokens
      (checkNewPage s LH) MARGIN ⟨hlow, hup, by
        simp only [checkNewPage_runs]; exact hs.2⟩
    exact ⟨by dsimp only; linarith [h.1], h.2.2⟩

theorem yok_processLines (LH : ℚ) (hLH : 0 ≤ LH) (m : Metrics) (d : Bool)
    (deflt : String) (ls : List HighlightedLine) : ∀ s : RState, YOk s →
    YOk (processLines LH m d deflt s ls) := by
  induction ls with
  | nil => exact fun s hs => hs
  | cons l ls ih =>
    exact fun s hs => ih _ (yok_processLine LH hLH m d deflt s l hs)

theorem yok_processFile (LH : ℚ) (hLH : 0 ≤ LH) (m : Metrics) (d : Bool)
    (deflt : String) (hadv : ∀ q : ℚ, 0 ≤ m.lineAdv q) (fn : String)
    (fsz : ℚ) (s : RState) (f : HighlightedFile) (hs : YOk s) :
    YOk (processFile LH m d deflt fn fsz s f) := by
  have hlow : MARGIN ≤ ({ s with y := s.y + 10 } : RState).y := by
    dsimp only
    linarith [hs.1]
  have hclow := cnp_y_lower { s with y := s.y + 10 } 20 hlow
  have hcup := cnp_y_le { s with y := s.y + 10 } (by norm_num : (0 : ℚ) ≤ 20)
  unfold processFile
  dsimp only [setFont, setFontSize, setTextColor, emitBlock]
  refine yok_processLines LH hLH m d deflt f.lines _ ⟨?_, ?_⟩
  · have h6 : (0 : ℚ) ≤ ((m.split fn "bold" 12
        ("File: " ++ f.path ++ " (" ++ f.language ++ ")") contentWidth).length : ℚ) * 6 :=
      mul_nonneg (Nat.cast_nonneg _) (by norm_num)
    dsimp only
    linarith
  · simp only [checkNewPage_runs]
    exact runs_ok_append hs.2
      (blockRuns_runok (by decide) hclow hcup (hadv 12))

theorem yok_processFiles (LH : ℚ) (hLH : 0 ≤ LH) (m : Metrics) (d : Bool)
    (deflt : String) (hadv : ∀ q : ℚ, 0 ≤ m.lineAdv q) (fn : String)
    (fsz : ℚ) (files : List HighlightedFile) : ∀ s : RState, YOk s →
    YOk (processFiles LH m d deflt fn fsz s files) := by
  induction files with
  | nil => exact fun s hs => hs
  | cons f files ih =>
    exact fun s hs => ih _
      (yok_processFile LH hLH m d deflt hadv fn fsz s f hs)

theorem yok_processTocEntry (LH : ℚ) (hLH : 0 ≤ LH) (m : Metrics)
    (hadv : ∀ q : ℚ, 0 ≤ m.lineAdv q) (s : RState) (p : String)
    (hs : YOk s) : YOk (processTocEntry LH m s p) := by
  have hneed : (0 : ℚ) ≤ ((m.split s.fontName s.fontStyle s.fontSize p
      contentWidth).length : ℚ) * LH := mul_nonneg (Nat.cast_nonneg _) hLH
  have hclow := cnp_y_lower s (((m.split s.fontName s.fontStyle s.fontSize p
      contentWidth).length : ℚ) * LH) hs.1
  have hcup := cnp_y_le s hneed
  unfold processTocEntry
  dsimp only [emitBlock]
  refine ⟨by dsimp only; linarith, ?_⟩
  simp only [checkNewPage_runs]
  exact runs_ok_append hs.2
    (blockRuns_runok (by decide) hclow hcup (hadv _))

theorem yok_processTocEntries (LH : ℚ) (hLH : 0 ≤ LH) (m : Metrics)
    (hadv : ∀ q : ℚ, 0 ≤ m.lineAdv q) (ps : List String) : ∀ s : RState,
    YOk s → YOk (processTocEntries LH m s ps) := by
  induction ps with
  | nil => exact fun s hs => hs
  | cons p ps ih =>
    exact fun s hs => ih _ (yok_processTocEntry LH hLH m hadv s p hs)

theorem yok_titlePhase (m : Metrics) (data : FormattedRepoData)
    (o : PdfOptions) (hadv : ∀ q : ℚ, 0 ≤ m.lineAdv q) (s : RState)
    (hs : YOk s) : YOk (titlePhase m data o s) := by
  have hneed : (0 : ℚ) ≤ ((m.split o.font "bold" 24 data.title
      contentWidth).length : ℚ) * 12 := mul_nonneg (Nat.cast_nonneg _) (by norm_num)
  have hclow := cnp_y_lower
    { s with fontName := o.font, fontStyle := "bold", fontSize := (24 : ℚ) }
    (((m.split o.font "bold" 24 data.title contentWidth).length : ℚ) * 12)
    hs.1
  have hcup := cnp_y_le
    { s with fontName := o.font, fontStyle := "bold", fontSize := (24 : ℚ) }
    hneed
  unfold titlePhase
  dsimp only [setFont, setFontSize, emitBlock]
  refine ⟨?_, ?_⟩
  · dsimp only
    linarith
  · simp only [checkNewPage_runs]
    exact runs_ok_append hs.2
      (blockRuns_runok (by decide) hclow hcup (hadv _))

theorem yok_tocHeadPhase (m : Metrics) (o : PdfOptions)
    (hadv : ∀ q : ℚ, 0 ≤ m.lineAdv q) (s : RState) (hs : YOk s) :
    YOk (tocHeadPhase m o s) := by
  have hclow := cnp_y_lower
    { s with color :=
      if o.theme == Theme.dark then DARK_MODE_TEXT else LIGHT_MODE_TEXT }
    20 hs.1
  have hcup := cnp_y_le
    { s with color :=
      if o.theme == Theme.dark then DARK_MODE_TEXT else LIGHT_MODE_TEXT }
    (by norm_num : (0 : ℚ) ≤ 20)
  unfold tocHeadPhase
  dsimp only [setFont, setFontSize, setTextColor, emitBlock]
  refine ⟨?_, ?_⟩
  · dsimp only
    linarith
  · simp only [checkNewPage_runs]
    exact runs_ok_append hs.2
      (blockRuns_runok (by decide) hclow hcup (hadv _))

/-- C3 (amended): with a nonnegative line height and a nonnegative
library line advance, every emitted run sits at or below the top margin;
every code-token run and the anchor (first) line of every wrapped text
block also sits above `pageHeight - MARGIN`.  (A wrapped block taller
than the content height can push its later lines past the bottom margin,
because the page-break check runs only once before the whole block; see
the counterexample.) -/
theorem C3_vertical_bounds (m : Metrics) (rn : String)
    (data : FormattedRepoData) (o : PdfOptions) (h1 : 0 ≤ o.fontSize)
    (h2 : 0 ≤ o.lineSpacing) (hadv : ∀ q : ℚ, 0 ≤ m.lineAdv q) :
    ∀ r ∈ (generateRepoPdf m rn data o).runs,
      MARGIN ≤ r.y ∧
        ((r.kind = RunKind.code ∨ r.blockLine = 0) →
          r.y ≤ pageHeight - MARGIN) := by
  have hLH : 0 ≤ o.fontSize * (1 / 2) * o.lineSpacing :=
    mul_nonneg (mul_nonneg h1 (by norm_num)) h2
  have hinit : YOk (initState o) := by
    refine ⟨le_rfl, ?_⟩
    intro r hr
    simp [initState] at hr
  have h := yok_processFiles (o.fontSize * (1 / 2) * o.lineSpacing) hLH m
    (o.theme == Theme.dark)
    (if o.theme == Theme.dark then DARK_MODE_TEXT else LIGHT_MODE_TEXT)
    hadv o.font o.fontSize data.files _
    (yok_processTocEntries (o.fontSize * (1 / 2) * o.lineSpacing) hLH m hadv
      data.tableOfContents _
      (yok_tocHeadPhase m o hadv _ (yok_titlePhase m data o hadv _ hinit)))
  exact h.2

/-- Witness for C3 (amended) at a concrete run of a concrete rendered
document. -/
theorem C3_vertical_bounds_witness :
    MARGIN ≤ (Run.mk "T" 15 15 "#000000" 0 RunKind.title 0).y ∧
      (((Run.mk "T" 15 15 "#000000" 0 RunKind.title 0).kind = RunKind.code ∨
          (Run.mk "T" 15 15 "#000000" 0 RunKind.title 0).blockLine = 0) →
        (Run.mk "T" 15 15 "#000000" 0 RunKind.title 0).y ≤
          pageHeight - MARGIN) :=
  C3_vertical_bounds unitMetrics "repo" ⟨"T", [], []⟩
    ⟨"Courier", 9, 1, Theme.light⟩ (by norm_num) (by norm_num)
    (fun q => by norm_num [unitMetrics])
    (Run.mk "T" 15 15 "#000000" 0 RunKind.title 0) sampleRun_mem

theorem processTocEntries_nil (LH : ℚ) (m : Metrics) (s : RState) :
    processTocEntries LH m s [] = s := rfl

/-- Inside one text block, every line index is realized by a run at the
corresponding vertical offset. -/
theorem blockRuns_mem_y (k : RunKind) (x y adv : ℚ) (c : String) (p : ℕ) :
    ∀ (ls : List String) (i j : ℕ), j < ls.length →
    ∃ r ∈ blockRuns k x y adv c p i ls,
      r.y = y + ((i + j : ℕ) : ℚ) * adv := by
  intro ls
  induction ls with
  | nil => intro i j h; simp at h
  | cons t ts ih =>
    intro i j h
    cases j with
    | zero =>
      refine ⟨⟨t, x, y + (i : ℚ) * adv, c, p, k, i⟩, ?_, ?_⟩
      · rw [blockRuns]
        exact List.mem_cons_self _ _
      · push_cast
        ring
    | succ j =>
      obtain ⟨r, hr, hy⟩ := ih (i + 1) j (by simpa using h)
      refine ⟨r, ?_, ?_⟩
      · rw [blockRuns]
        exact List.mem_cons_of_mem _ hr
      · rw [hy]
        push_cast
        ring

/-- A metrics instantiation whose word-wrap splits the title into 28
lines and whose per-line advance within a text block is 10 units (close
to the real jsPDF advance for the 24-point title font). -/
def tallSplitMetrics : Metrics :=
  ⟨fun _ _ _ _ => 0,
    fun _ _ _ t _ => if t = "T" then List.replicate 28 "t" else [t],
    fun _ => 10⟩

/-- A document with a title that wraps into 28 lines, an empty table of
contents and no files. -/
def tallDoc : FormattedRepoData := ⟨"T", [], []⟩

/-- Counterexample to C3 as stated: rendering `tallDoc` under
`tallSplitMetrics` emits a title run whose vertical position exceeds
`pageHeight - MARGIN` — the page-break check runs once before the whole
28-line title block and, after resetting to the top margin, the block's
later lines run past the bottom margin. -/
theorem C3_counterexample :
    ∃ r ∈ (generateRepoPdf tallSplitMetrics "repo" tallDoc
      ⟨"Courier", 9, 1, Theme.light⟩).runs, pageHeight - MARGIN < r.y := by
  obtain ⟨blH, hH, -, -⟩ := tocHeadPhase_runs_char tallSplitMetrics
    ⟨"Courier", 9, 1, Theme.light⟩
    (titlePhase tallSplitMetrics tallDoc ⟨"Courier", 9, 1, Theme.light⟩
      (initState ⟨"Courier", 9, 1, Theme.light⟩))
  have hruns : (generateRepoPdf tallSplitMetrics "repo" tallDoc
      ⟨"Courier", 9, 1, Theme.light⟩).runs =
      (titlePhase tallSplitMetrics tallDoc ⟨"Courier", 9, 1, Theme.light⟩
        (initState ⟨"Courier", 9, 1, Theme.light⟩)).runs ++ blH := by
    show (renderState tallSplitMetrics "repo" tallDoc
      ⟨"Courier", 9, 1, Theme.light⟩).runs = _
    unfold renderState renderBody
    dsimp only
    rw [show tallDoc.files = [] from rfl, processFiles_nil,
      show tallDoc.tableOfContents = [] from rfl, processTocEntries_nil]
    exact hH
  have h1 : (titlePhase tallSplitMetrics tallDoc ⟨"Courier", 9, 1, Theme.light⟩
      (initState ⟨"Courier", 9, 1, Theme.light⟩)).runs =
      blockRuns RunKind.title 15 15 10 "#000000" 1 0
        (List.replicate 28 "t") := by
    unfold titlePhase initState
    dsimp only [setFont, setFontSize, emitBlock]
    norm_num [tallSplitMetrics, tallDoc, checkNewPage, MARGIN, pageHeight,
      LIGHT_MODE_TEXT, DARK_MODE_TEXT]
    rw [if_neg (by decide : ¬(Theme.light = Theme.dark))]
  obtain ⟨r, hr, hy⟩ := blockRuns_mem_y RunKind.title 15 15 10 "#000000" 1
    (List.replicate 28 "t") 0 27 (by simp)
  refine ⟨r, ?_, ?_⟩
  · rw [hruns]
    exact List.mem_append_left _ (h1 ▸ hr)
  · rw [hy]
    norm_num [MARGIN, pageHeight]

/-! The table-of-contents join: the stable sort of `formatRepoForPdf`. -/

theorem jsIndexOf_lower (l : List String) (a : String) :
    -1 ≤ jsIndexOf l a := by
  unfold jsIndexOf
  cases h : jsIndexOfAux a l with
  | none => exact le_rfl
  | some i => dsimp only; omega

theorem jsIndexOfAux_get (toc : List String) (hnd : toc.Nodup) :
    ∀ (i : ℕ) (hi : i < toc.length),
    jsIndexOfAux (toc.get ⟨i, hi⟩) toc = some i := by
  induction toc with
  | nil => intro i hi; simp at hi
  | cons a t ih =>
    intro i hi
    obtain ⟨ha, ht⟩ := List.nodup_cons.mp hnd
    cases i with
    | zero => simp [jsIndexOfAux]
    | succ i =>
      have hmem : t.get ⟨i, by simpa using hi⟩ ∈ t := t.get_mem _ _
      have hne : ¬(a == (a :: t).get ⟨i + 1, hi⟩) := by
        show ¬(a == t.get ⟨i, by simpa using hi⟩)
        simp only [beq_iff_eq]
        intro h
        exact ha (h ▸ hmem)
      rw [show ((a :: t).get ⟨i + 1, hi⟩) = t.get ⟨i, by simpa using hi⟩ from rfl]
      rw [jsIndexOfAux, if_neg (by simpa using hne),
        ih ht i (by simpa using hi)]
      rfl

theorem jsIndexOfAux_some (a : String) :
    ∀ (l : List String) (i : ℕ), jsIndexOfAux a l = some i →
    l.get? i = some a := by
  intro l
  induction l with
  | nil => intro i h; simp [jsIndexOfAux] at h
  | cons b t ih =>
    intro i h
    rw [jsIndexOfAux] at h
    by_cases hb : b == a
    · rw [if_pos hb] at h
      obtain rfl : (0 : ℕ) = i := by simpa using h
      simp [List.get?]
      exact (beq_iff_eq.mp hb)
    · rw [if_neg hb] at h
      obtain ⟨j, hj, rfl⟩ := Option.map_eq_some'.mp h
      simpa using ih j hj

theorem map_jsIndexOf_toc (toc : List String) (hnd : toc.Nodup) :
    toc.map (fun p => jsIndexOf toc p) =
      (List.range toc.length).map (fun i : ℕ => (i : ℤ)) := by
  refine List.ext_get ?_ ?_
  · rw [List.length_map, List.length_map, List.length_range]
  · intro n h1 h2
    rw [List.get_map, List.get_map]
    dsimp only
    unfold jsIndexOf
    rw [jsIndexOfAux_get toc hnd n]
    rw [List.get_range]

theorem jsIndexOf_eq_nat {toc : List String} {p : String} {i : ℕ}
    (h : jsIndexOf toc p = (i : ℤ)) : jsIndexOfAux p toc = some i := by
  unfold jsIndexOf at h
  cases hx : jsIndexOfAux p toc with
  | none => rw [hx] at h; dsimp only at h; omega
  | some j =>
    rw [hx] at h
    dsimp only at h
    have : j = i := by omega
    rw [this]

theorem filter_orderedInsert_key (toc : List String) (k : ℤ)
    (a : HighlightedFile) : ∀ l : List HighlightedFile,
    (List.orderedInsert (fun a b => fileKey toc a ≤ fileKey toc b) a l).filter
        (fun f => fileKey toc f == k)
      = if fileKey toc a == k then
          a :: l.filter (fun f => fileKey toc f == k)
        else l.filter (fun f => fileKey toc f == k) := by
  intro l
  induction l with
  | nil =>
    by_cases hpa : fileKey toc a == k <;>
      simp [List.orderedInsert, List.filter, hpa]
  | cons b t ih =>
    rw [List.orderedInsert]
    split
    · by_cases hpa : fileKey toc a == k <;>
        simp [List.filter_cons, hpa]
    · next hab =>
      by_cases hpa : fileKey toc a == k
      · have hbk : ¬(fileKey toc b == k) := by
          have h1 : fileKey toc b < fileKey toc a := not_le.mp hab
          have h2 : fileKey toc a = k := beq_iff_eq.mp hpa
          simp only [beq_iff_eq]
          omega
        simp [List.filter_cons, hpa, hbk, ih]
      · simp [List.filter_cons, hpa, ih]

theorem filter_sortFiles_key (toc : List String) (k : ℤ) :
    ∀ l : List HighlightedFile,
    (sortFiles toc l).filter (fun f => fileKey toc f == k)
      = l.filter (fun f => fileKey toc f == k) := by
  intro l
  induction l with
  | nil => rfl
  | cons a l ih =>
    show (List.orderedInsert (fun a b => fileKey toc a ≤ fileKey toc b) a
        (sortFiles toc l)).filter (fun f => fileKey toc f == k) = _
    rw [filter_orderedInsert_key, ih]
    by_cases hpa : fileKey toc a == k
    · rw [if_pos hpa, List.filter_cons, if_pos hpa]
    · rw [if_neg hpa, List.filter_cons, if_neg hpa]

/-- C4 (amended): the reorder of `formatRepoForPdf` sorts files by
`tableOfContents.indexOf(path)` with a stable sort, so (a) whenever the
file paths are a permutation of a duplicate-free table of contents, the
emitted file order is exactly the table-of-contents order; (b) files
whose path is absent from the table of contents (index -1) sort BEFORE
every file whose path is present, not after; and (c) the sort is stable:
files with equal sort keys keep their arrival order. -/
theorem C4_toc_join (toc : List String) (fs : List HighlightedFile) :
    ((fs.map HighlightedFile.path).Perm toc → toc.Nodup →
      (sortFiles toc fs).map HighlightedFile.path = toc)
    ∧ List.Pairwise (fun a b => fileKey toc b = -1 → fileKey toc a = -1)
        (sortFiles toc fs)
    ∧ ∀ k : ℤ, (sortFiles toc fs).filter (fun f => fileKey toc f == k)
        = fs.filter (fun f => fileKey toc f == k) := by
  letI : IsTotal HighlightedFile
      (fun a b => fileKey toc a ≤ fileKey toc b) := ⟨fun a b => le_total _ _⟩
  letI : IsTrans HighlightedFile
      (fun a b => fileKey toc a ≤ fileKey toc b) :=
    ⟨fun a b c hab hbc => le_trans hab hbc⟩
  have hsorted : List.Sorted (fun a b => fileKey toc a ≤ fileKey toc b)
      (sortFiles toc fs) := List.sorted_insertionSort _ fs
  have hperm2 : List.Perm (sortFiles toc fs) fs := List.perm_insertionSort _ fs
  refine ⟨?_, ?_, fun k => filter_sortFiles_key toc k fs⟩
  · intro hperm hnd
    have hkeysorted : List.Sorted (· ≤ ·)
        ((sortFiles toc fs).map (fun f => fileKey toc f)) := by
      exact List.pairwise_map.mpr hsorted
    have hkeyperm : List.Perm ((sortFiles toc fs).map (fun f => fileKey toc f))
        ((List.range toc.length).map (fun i : ℕ => (i : ℤ))) := by
      have e1 : List.Perm ((sortFiles toc fs).map (fun f => fileKey toc f))
          (fs.map (fun f => fileKey toc f)) := hperm2.map _
      have e2 : fs.map (fun f => fileKey toc f) =
          (fs.map HighlightedFile.path).map (fun p => jsIndexOf toc p) := by
        rw [List.map_map]
        rfl
      have e3 : List.Perm
          ((fs.map HighlightedFile.path).map (fun p => jsIndexOf toc p))
          (toc.map (fun p => jsIndexOf toc p)) := hperm.map _
      rw [map_jsIndexOf_toc toc hnd] at e3
      exact e1.trans (e2 ▸ e3)
    have hrangesorted : List.Sorted (· ≤ ·)
        ((List.range toc.length).map (fun i : ℕ => (i : ℤ))) := by
      refine List.pairwise_map.mpr ?_
      refine List.Pairwise.imp ?_ (List.pairwise_lt_range toc.length)
      intro a b hab
      exact_mod_cast le_of_lt hab
    have hkeys : (sortFiles toc fs).map (fun f => fileKey toc f) =
        (List.range toc.length).map (fun i : ℕ => (i : ℤ)) :=
      List.eq_of_perm_of_sorted hkeyperm hkeysorted hrangesorted
    have hlen : ((sortFiles toc fs).map HighlightedFile.path).length =
        toc.length := by
      rw [List.length_map, hperm2.length_eq, ← hperm.length_eq,
        List.length_map]
    refine List.ext_get hlen ?_
    intro n h1 h2
    have hn : n < (sortFiles toc fs).length := by simpa using h1
    have hkey : fileKey toc ((sortFiles toc fs).get ⟨n, hn⟩) = (n : ℤ) := by
      have := congrArg (fun l => l.get? n) hkeys
      simp only [List.get?_map] at this
      rw [List.get?_eq_get hn] at this
      have hn2 : n < (List.range toc.length).length := by simpa using h2
      rw [List.get?_eq_get hn2] at this
      simp only [Option.map_some'] at this
      have := Option.some.inj this
      rw [this]
      simp [List.get_range]
    have haux : jsIndexOfAux ((sortFiles toc fs).get ⟨n, hn⟩).path toc
        = some n := jsIndexOf_eq_nat hkey
    have hget := jsIndexOfAux_some _ toc n haux
    rw [List.get?_eq_get (by simpa using h2)] at hget
    rw [List.get_map]
    exact (Option.some.inj hget).symm
  · refine List.Pairwise.imp ?_ hsorted
    intro a b hab hb
    have := jsIndexOf_lower toc a.path
    unfold fileKey at hab hb ⊢
    omega

/-- Counterexample to C4 as stated: with `tableOfContents = ["b.ts"]`
and files arriving as `[c.ts, b.ts]`, the file `c.ts` (absent from the
table of contents, index -1) is placed BEFORE the present file `b.ts`,
not after it as the claim requires. -/
theorem C4_counterexample :
    (sortFiles ["b.ts"] [⟨"c.ts", "ts", []⟩, ⟨"b.ts", "ts", []⟩]).map
        HighlightedFile.path = ["c.ts", "b.ts"]
    ∧ (sortFiles ["b.ts"] [⟨"c.ts", "ts", []⟩, ⟨"b.ts", "ts", []⟩]).map
        HighlightedFile.path ≠ ["b.ts", "c.ts"] := by
  refine ⟨?_, ?_⟩ <;> decide

/-- Witness for C4 (amended) on the specification's own test vector:
`tableOfContents = ["b.ts", "a.ts"]`, files arriving `[a.ts, b.ts]`,
rendered order `b.ts` then `a.ts`. -/
theorem C4_toc_join_witness :
    (sortFiles ["b.ts", "a.ts"]
      [⟨"a.ts", "ts", []⟩, ⟨"b.ts", "ts", []⟩]).map HighlightedFile.path
      = ["b.ts", "a.ts"] :=
  (C4_toc_join ["b.ts", "a.ts"]
    [⟨"a.ts", "ts", []⟩, ⟨"b.ts", "ts", []⟩]).1 (by decide) (by decide)

end RepoPdf
